/-
Verification of the boosting orchestration of `asboostreg.py`
(SparseAdditiveBoostingRegressor).

The numeric model uses exact rationals for all values produced by the
training loop.  External collaborators (the preprocessor, the weak tree
learner, the scoring functions, the random generator) are parameters of
the embedding, mirroring the fact that they are pluggable or live in the
`model_helpers` package.  The final root-mean-squared conversion of the
score history is stated over the reals.
-/
import Mathlib

namespace ASBoost

/-- Result shape of a numpy reduction: either a scalar (e.g. `np.sum([])`
or the literal `0.0` passed as redundancy in round 0) or a vector. -/
inductive NpArr where
  | scalar (c : ℚ)
  | vec (v : List ℚ)
  deriving DecidableEq, Repr

/-- Terminal state of the boosting loop, per the specified state machine. -/
inductive TermState where
  | Converged
  | EarlyStopped
  deriving DecidableEq, Repr

/-- The single user-facing guarded error. -/
inductive FitError where
  | notFitted
  deriving DecidableEq, Repr

/-- Mean of a list of rationals (`np.mean`); division by zero yields 0. -/
def mean (l : List ℚ) : ℚ := l.sum / (l.length : ℚ)

/-- Mean of squares (`np.square(v).mean()`). -/
def msq (l : List ℚ) : ℚ := mean (l.map (fun x => x * x))

/-- Checks `np.all(np.diff(w) >= 0)`: consecutive entries never decrease. -/
def nonDecr : List ℚ → Bool
  | [] => true
  | [_] => true
  | a :: b :: rest => (a ≤ b : Bool) && nonDecr (b :: rest)

/-- First index of the maximum value, i.e. `np.argmax` (which documents
that the first occurrence of the maximum is returned); 0 on the empty list. -/
def npArgmax (l : List ℚ) : ℕ :=
  match l.maximum with
  | none => 0
  | some v => l.indexOf v

/-- Column `f` of a row-major matrix (`X[:, f]`); missing entries read 0. -/
def colOf (M : List (List ℚ)) (f : ℕ) : List ℚ := M.map (fun r => r.getD f 0)

/-- Insert index `i` into an index list sorted by the key, keeping order. -/
def sIns (key : ℕ → ℚ) (i : ℕ) : List ℕ → List ℕ
  | [] => [i]
  | j :: js => if key j ≤ key i then j :: sIns key i js else i :: j :: js

/-- Insertion sort of an index list by a rational key. -/
def sortIdx (key : ℕ → ℚ) : List ℕ → List ℕ
  | [] => []
  | i :: is => sIns key i (sortIdx key is)

/-- Ascending sort permutation of a column (`np.argsort`). -/
def argsortQ (l : List ℚ) : List ℕ :=
  sortIdx (fun i => l.getD i 0) (List.range l.length)

/-- An n-by-n matrix of rationals, as a total function on indices. -/
def Mat : Type := ℕ → ℕ → ℚ

/-- Literal translation of `np.add.at(M, (f, slice(None)), 1.0)`. -/
def addRow (M : Mat) (f : ℕ) : Mat :=
  fun i j => if i = f then M i j + 1 else M i j

/-- Literal translation of `np.add.at(M, (slice(None), f), 1.0)`. -/
def addCol (M : Mat) (f : ℕ) : Mat :=
  fun i j => if j = f then M i j + 1 else M i j

/-- Literal translation of `M[a, b] = v`. -/
def setEntry (M : Mat) (a b : ℕ) (v : ℚ) : Mat :=
  fun i j => if i = a ∧ j = b then v else M i j

/-- Per-round update of the selected-count matrix: add 1 to row `f`, add
1 to column `f` (double-incrementing the diagonal cell), then reset the
diagonal cell to 0. -/
def updateCountMatrix (M : Mat) (f : ℕ) : Mat :=
  setEntry (addCol (addRow M f) f) f f 0

/-- Redundancy vector of round `t`: elementwise product of the static
redundancy matrix `R` with the count matrix `C`, summed along each row,
divided by `t`. -/
def redVec (R C : Mat) (n t : ℕ) : List ℚ :=
  (List.range n).map
    (fun i => ((List.range n).map (fun j => R i j * C i j)).sum / (t : ℚ))

/-- Validation entries of the trailing window examined by the stopping
check at round `t`: `score_history_[t - k : t, 1]`. -/
def windowVals (k : ℕ) (hist : List (ℚ × ℚ)) (t : ℕ) : List ℚ :=
  (((hist.map Prod.snd).drop (t - k)).take k)

/-- Constructor hyper-parameters and optional labels of the estimator
(the `attrs` fields that are set at construction time). -/
structure Config where
  n_estimators : ℕ
  learning_rate : ℚ
  random_state : Option ℤ
  row_subsample : ℚ
  validation_fraction : ℚ
  n_iter_no_change : ℕ
  fill_value : ℚ
  max_bins : ℕ
  max_depth : ℕ
  l2_regularization : ℚ
  min_samples_split : ℕ
  min_samples_leaf : ℕ
  categorical_features : List ℕ
  feature_names_in_ : Option (List String)
  output_name : Option String
  deriving DecidableEq, Repr

/-- External collaborators of the loop: the pluggable scoring functions,
the preprocessor (row-wise, fitted on the training data), the weak tree
learner of `model_helpers.od_tree`, and the seeded generator modelled as
a stream of uniform draws consumed in order. -/
structure Collab where
  relevancy_scorer : List (List ℚ) → List ℚ → List ℚ
  redundancy_matrix : List (List ℚ) → Mat
  mrmr_scheme : List ℚ → NpArr → List ℚ
  tree_fit : Config → List ℚ → List ℚ → (ℚ → ℚ)
  rng : ℕ → ℚ
  fit_transform_row : List (List ℚ) → List ℚ → List ℚ → List ℚ
  transform_row : List (List ℚ) → List ℚ → List ℚ → List ℚ

/-- Mutable training state of one in-flight `fit` call. -/
structure FitState where
  residual : List ℚ
  residual_valid : List ℚ
  selected_count_matrix : Mat
  selection_history : List ℕ
  score_history : List (ℚ × ℚ)
  regressors : List (List (ℚ → ℚ))
  indexing_cache : List (Option (List ℕ))
  rng_cursor : ℕ

/-- Translation of `_get_index`: memoised ascending sort order of the
selected feature's column; returns the possibly-extended cache. -/
def getIndexC (cache : List (Option (List ℕ))) (Xt : List (List ℚ)) (f : ℕ) :
    List (Option (List ℕ)) × List ℕ :=
  match cache.getD f none with
  | some idx => (cache, idx)
  | none =>
      let idx := argsortQ (colOf Xt f)
      (cache.set f (some idx), idx)

/-- Translation of `_boost`: select a feature by mRMR, update the count
matrix, sort and subsample, fit a weak learner, update both residuals,
and record the selection and the squared-error scores. -/
def boost (cfg : Config) (cl : Collab) (Xt Xv : List (List ℚ)) (mRows : ℕ)
    (red : NpArr) (_t : ℕ) (st : FitState) : FitState :=
  let relevancy := cl.relevancy_scorer Xt st.residual
  let score := cl.mrmr_scheme relevancy red
  let f := npArgmax score
  let cm := updateCountMatrix st.selected_count_matrix f
  let col := colOf Xt f
  let ci := getIndexC st.indexing_cache Xt f
  let idx := ci.2
  let Xs := idx.map (fun i => col.getD i 0)
  let ys := idx.map (fun i => st.residual.getD i 0)
  let kept := (List.range mRows).filter
    (fun j => cl.rng (st.rng_cursor + j) ≤ cfg.row_subsample)
  let xsT := kept.map (fun j => Xs.getD j 0)
  let ysT := kept.map (fun j => ys.getD j 0)
  let g := cl.tree_fit cfg xsT ysT
  let residual' := List.zipWith (fun r x => r - g x) st.residual col
  let colv := colOf Xv f
  let residual_valid' := List.zipWith (fun r x => r - g x) st.residual_valid colv
  { residual := residual'
    residual_valid := residual_valid'
    selected_count_matrix := cm
    selection_history := st.selection_history ++ [f]
    score_history := st.score_history ++ [(msq residual', msq residual_valid')]
    regressors := st.regressors.set f ((st.regressors.getD f []) ++ [g])
    indexing_cache := ci.1
    rng_cursor := st.rng_cursor + mRows }

/-- One round of the `for model_count in range(1, n_estimators)` loop:
derive the redundancy vector from the static matrix `R` and the current
count matrix, then boost. -/
def roundStep (cfg : Config) (cl : Collab) (Xt Xv : List (List ℚ))
    (mRows n : ℕ) (R : Mat) (t : ℕ) (st : FitState) : FitState :=
  boost cfg cl Xt Xv mRows (NpArr.vec (redVec R st.selected_count_matrix n t)) t st

/-- The boosting loop from round `t` on, with `fuel` rounds remaining.
Returns the final state and `some t` when the early-stopping check of
round `t` fired (`break` with `n_estimators = t + 1`). -/
def boostLoop (cfg : Config) (cl : Collab) (Xt Xv : List (List ℚ))
    (mRows n : ℕ) (R : Mat) : ℕ → ℕ → FitState → FitState × Option ℕ
  | 0, _, st => (st, none)
  | fuel + 1, t, st =>
      let st' := roundStep cfg cl Xt Xv mRows n R t st
      if cfg.n_iter_no_change ≤ t ∧
          nonDecr (windowVals cfg.n_iter_no_change st'.score_history t) = true then
        (st', some t)
      else
        boostLoop cfg cl Xt Xv mRows n R fuel (t + 1) st'

/-- Number of features `self._n`, read off the input shape. -/
def nFeat (X : List (List ℚ)) : ℕ := (X.headD []).length

/-- Preprocessed training matrix `X_train`. -/
def XtD (cl : Collab) (X : List (List ℚ)) (y : List ℚ) : List (List ℚ) :=
  X.map (cl.fit_transform_row X y)

/-- Preprocessed validation matrix `X_val`. -/
def XvD (cl : Collab) (X : List (List ℚ)) (y : List ℚ)
    (Xval : List (List ℚ)) : List (List ℚ) :=
  Xval.map (cl.transform_row X y)

/-- The static redundancy matrix, computed once from the full training
matrix. -/
def RD (cl : Collab) (X : List (List ℚ)) (y : List ℚ) : Mat :=
  cl.redundancy_matrix (XtD cl X y)

/-- State immediately after `_initialize_fit_params` and the residual
initialisation of `_fit`. -/
def initSt (n : ℕ) (intercept : ℚ) (y yval : List ℚ) : FitState :=
  { residual := y.map (fun v => v - intercept)
    residual_valid := yval.map (fun v => v - intercept)
    selected_count_matrix := fun _ _ => 0
    selection_history := []
    score_history := []
    regressors := List.replicate n []
    indexing_cache := List.replicate n none
    rng_cursor := 0 }

/-- Translation of `_fit`: round 0 with scalar redundancy `0.0`, then
the loop over rounds `1 .. n_estimators - 1` with the early-stop check. -/
def runFit (cfg : Config) (cl : Collab) (X : List (List ℚ)) (y : List ℚ)
    (Xval : List (List ℚ)) (yval : List ℚ) : FitState × Option ℕ :=
  let mRows := X.length
  let n := nFeat X
  let Xt := XtD cl X y
  let Xv := XvD cl X y Xval
  let intercept := mean y
  let st0 := initSt n intercept y yval
  let st1 := boost cfg cl Xt Xv mRows (NpArr.scalar 0) 0 st0
  let R := RD cl X y
  boostLoop cfg cl Xt Xv mRows n R (cfg.n_estimators - 1) 1 st1

/-- Modelled from the spec: the composite per-feature function produced
by `sum_tree_regressors` of `model_helpers.od_tree` (absent from the
sources); it carries the learned one-dimensional function and the
`is_selected` flag, true iff the source learner list was non-empty. -/
structure ListTreeRegressor where
  predictFn : ℚ → ℚ
  is_selected : Bool

instance : Inhabited ListTreeRegressor := ⟨⟨fun _ => 0, false⟩⟩

/-- Modelled from the spec: `sum_tree_regressors` sums a feature's weak
learners into one composite function; `is_selected` is true iff the list
is non-empty. -/
def sum_tree_regressors (models : List (ℚ → ℚ)) : ListTreeRegressor :=
  { predictFn := fun x => (models.map (fun g => g x)).sum
    is_selected := !models.isEmpty }

/-- Modelled from the spec: `fix_bias` recenters the composite to zero
mean on the given training values and returns the removed mean. -/
def fix_bias (r : ListTreeRegressor) (xs : List ℚ) : ListTreeRegressor × ℚ :=
  let mu := mean (xs.map r.predictFn)
  ({ predictFn := fun x => r.predictFn x - mu, is_selected := r.is_selected }, mu)

/-- The estimator object: configuration plus the attributes written by
`fit`.  `is_fitted` mirrors `self._is_fitted`; `term` records whether a
completed fit converged or stopped early (`none` before any fit). -/
structure Model where
  cfg : Config
  intercept_ : ℚ
  regressors_ : List ListTreeRegressor
  selection_history_ : List ℕ
  rawScoreHistory : List (ℚ × ℚ)
  nFeatures : ℕ
  transformR : List ℚ → List ℚ
  term : Option TermState
  is_fitted : Bool

/-- A freshly constructed, unfitted estimator. -/
def newModel (cfg : Config) : Model :=
  { cfg := cfg
    intercept_ := 0
    regressors_ := []
    selection_history_ := []
    rawScoreHistory := []
    nFeatures := 0
    transformR := fun r => r
    term := none
    is_fitted := false }

/-- Translation of `fit` (with an explicit validation set): run the
loop, aggregate each feature's learners, correct the bias into the
intercept, truncate the selection history to the effective round count,
and overwrite `n_estimators` when early stopping fired.  The optional
labels are resolved as in `_initialize_fit_params`. -/
def fitModel (cfg : Config) (cl : Collab) (X : List (List ℚ)) (y : List ℚ)
    (Xval : List (List ℚ)) (yval : List ℚ) : Model :=
  let n := nFeat X
  let names := match cfg.feature_names_in_ with
    | some ns => some ns
    | none => some ((List.range n).map (fun i => "feature_" ++ toString i))
  let outName := match cfg.output_name with
    | some s => some s
    | none => some "output"
  let Xt := XtD cl X y
  let res := runFit cfg cl X y Xval yval
  let st := res.1
  let effN := match res.2 with
    | some t => t + 1
    | none => cfg.n_estimators
  let fixed := (List.range n).map
    (fun i => fix_bias (sum_tree_regressors (st.regressors.getD i [])) (colOf Xt i))
  { cfg := { cfg with
      n_estimators := effN
      feature_names_in_ := names
      output_name := outName }
    intercept_ := mean y + (fixed.map Prod.snd).sum
    regressors_ := fixed.map Prod.fst
    selection_history_ := st.selection_history.take effN
    rawScoreHistory := st.score_history
    nFeatures := n
    transformR := cl.transform_row X y
    term := match res.2 with
      | some _ => some TermState.EarlyStopped
      | none => some TermState.Converged
    is_fitted := true }

/-- Sum of a list of equal-length vectors, as `np.sum(vs, axis=0)` does
on a non-empty stack. -/
def sumVecs : List (List ℚ) → List ℚ
  | [] => []
  | [v] => v
  | v :: vs => List.zipWith (fun a b => a + b) v (sumVecs vs)

/-- `np.sum(vs, axis=0)`: the scalar 0.0 on an empty list, otherwise the
elementwise sum. -/
def npSumAxis0 (vs : List (List ℚ)) : NpArr :=
  match vs with
  | [] => NpArr.scalar 0
  | vs => NpArr.vec (sumVecs vs)

/-- Numpy broadcasting of `c + a`. -/
def broadcastAdd (c : ℚ) : NpArr → NpArr
  | NpArr.scalar s => NpArr.scalar (c + s)
  | NpArr.vec v => NpArr.vec (v.map (fun x => c + x))

/-- Body of `predict`: intercept plus the stacked predictions of the
selected regressors, summed along axis 0. -/
def predictRaw (M : Model) (X : List (List ℚ)) : NpArr :=
  let Xa := X.map M.transformR
  broadcastAdd M.intercept_
    (npSumAxis0
      (((List.range M.regressors_.length).filter
          (fun i => (M.regressors_.getD i default).is_selected)).map
        (fun i => Xa.map (fun row => (M.regressors_.getD i default).predictFn (row.getD i 0)))))

/-- `predict`, with the not-fitted guard. -/
def predictE (M : Model) (X : List (List ℚ)) : Except FitError NpArr :=
  if M.is_fitted then Except.ok (predictRaw M X) else Except.error FitError.notFitted

/-- Body of `contribution_frame`: one row per sample; first column the
intercept, then every feature's composite prediction. -/
def contributionRaw (M : Model) (X : List (List ℚ)) : List (List ℚ) :=
  let Xa := X.map M.transformR
  Xa.map (fun row =>
    M.intercept_ ::
      (List.range M.nFeatures).map
        (fun i => (M.regressors_.getD i default).predictFn (row.getD i 0)))

/-- `contribution_frame`, with the not-fitted guard. -/
def contribution_frameE (M : Model) (X : List (List ℚ)) :
    Except FitError (List (List ℚ)) :=
  if M.is_fitted then Except.ok (contributionRaw M X) else Except.error FitError.notFitted

/-- `explain`, with the not-fitted guard (its rendering is out of scope). -/
def explainE (M : Model) (_X : List (List ℚ)) : Except FitError Unit :=
  if M.is_fitted then Except.ok () else Except.error FitError.notFitted

/-- `plot_model_information`, with the not-fitted guard (rendering out of
scope). -/
def plot_model_informationE (M : Model) : Except FitError Unit :=
  if M.is_fitted then Except.ok () else Except.error FitError.notFitted

/-- The post-loop conversion of the score history to root mean squared
errors: `np.sqrt(score_history_, out=score_history_)`, applied once. -/
noncomputable def score_history_ (M : Model) : List (ℝ × ℝ) :=
  M.rawScoreHistory.map (fun p => (Real.sqrt (p.1 : ℝ), Real.sqrt (p.2 : ℝ)))

section Rounds

variable (cfg : Config) (cl : Collab) (X : List (List ℚ)) (y : List ℚ)
variable (Xval : List (List ℚ)) (yval : List ℚ)

/-- Training state after round `t` has completed (round 0 runs
unconditionally before the loop). -/
def stateAfter : ℕ → FitState
  | 0 => boost cfg cl (XtD cl X y) (XvD cl X y Xval) X.length (NpArr.scalar 0) 0
      (initSt (nFeat X) (mean y) y yval)
  | t + 1 => roundStep cfg cl (XtD cl X y) (XvD cl X y Xval) X.length (nFeat X)
      (RD cl X y) (t + 1) (stateAfter t)

/-- Training state at the start of round `t`. -/
def preState : ℕ → FitState
  | 0 => initSt (nFeat X) (mean y) y yval
  | t + 1 => stateAfter cfg cl X y Xval yval t

/-- The redundancy argument handed to round `t`: the exact scalar 0.0 at
round 0, the derived redundancy vector afterwards. -/
def redArgAt : ℕ → NpArr
  | 0 => NpArr.scalar 0
  | t + 1 => NpArr.vec
      (redVec (RD cl X y)
        ((preState cfg cl X y Xval yval (t + 1)).selected_count_matrix)
        (nFeat X) (t + 1))

/-- The mRMR score vector examined at round `t`. -/
def scoreAt (t : ℕ) : List ℚ :=
  cl.mrmr_scheme
    (cl.relevancy_scorer (XtD cl X y) ((preState cfg cl X y Xval yval t).residual))
    (redArgAt cfg cl X y Xval yval t)

/-- The feature selected at round `t`. -/
def selectedAt (t : ℕ) : ℕ := npArgmax (scoreAt cfg cl X y Xval yval t)

/-- The sort permutation used at round `t` for the selected feature. -/
def indexAt (t : ℕ) : List ℕ :=
  (getIndexC ((preState cfg cl X y Xval yval t).indexing_cache) (XtD cl X y)
    (selectedAt cfg cl X y Xval yval t)).2

/-- The subsample mask of round `t`, as the list of kept positions. -/
def keptAt (t : ℕ) : List ℕ :=
  (List.range X.length).filter
    (fun j => cl.rng ((preState cfg cl X y Xval yval t).rng_cursor + j) ≤ cfg.row_subsample)

/-- The sorted feature column of round `t` (`X_sorted`). -/
def XsortedAt (t : ℕ) : List ℚ :=
  (indexAt cfg cl X y Xval yval t).map
    (fun i => (colOf (XtD cl X y) (selectedAt cfg cl X y Xval yval t)).getD i 0)

/-- The sorted training residual of round `t` (`y_sorted`). -/
def ysortedAt (t : ℕ) : List ℚ :=
  (indexAt cfg cl X y Xval yval t).map
    (fun i => ((preState cfg cl X y Xval yval t).residual).getD i 0)

/-- The subsampled sorted feature values handed to the weak learner. -/
def xsTrainAt (t : ℕ) : List ℚ :=
  (keptAt cfg cl X y Xval yval t).map
    (fun j => (XsortedAt cfg cl X y Xval yval t).getD j 0)

/-- The subsampled sorted residuals handed to the weak learner. -/
def ysTrainAt (t : ℕ) : List ℚ :=
  (keptAt cfg cl X y Xval yval t).map
    (fun j => (ysortedAt cfg cl X y Xval yval t).getD j 0)

/-- The weak learner fitted at round `t`. -/
def learnerAt (t : ℕ) : ℚ → ℚ :=
  cl.tree_fit cfg (xsTrainAt cfg cl X y Xval yval t) (ysTrainAt cfg cl X y Xval yval t)

/-- The early-stopping condition examined right after round `t` of the
loop: the check is guarded by `t ≥ n_iter_no_change` and looks at the
trailing validation window `score_history_[t - k : t, 1]`. -/
def Trigger (t : ℕ) : Prop :=
  cfg.n_iter_no_change ≤ t ∧
    nonDecr (windowVals cfg.n_iter_no_change
      (stateAfter cfg cl X y Xval yval t).score_history t) = true

instance (t : ℕ) : Decidable (Trigger cfg cl X y Xval yval t) :=
  inferInstanceAs (Decidable (_ ∧ _))

/-- Effective number of rounds of the fit: `t + 1` on an early stop at
round `t`, the configured `n_estimators` otherwise. -/
def effRounds : ℕ :=
  match (runFit cfg cl X y Xval yval).2 with
  | some t => t + 1
  | none => cfg.n_estimators

end Rounds

/-- Symmetry together with an all-zero diagonal. -/
def SymZeroDiag (M : Mat) : Prop :=
  (∀ i j, M i j = M j i) ∧ (∀ i, M i i = 0)

/-- A small concrete configuration exercised by the concrete runs. -/
def cfgBase : Config :=
  { n_estimators := 4, learning_rate := 1/10, random_state := none,
    row_subsample := 1, validation_fraction := 1/10, n_iter_no_change := 2,
    fill_value := 10000, max_bins := 256, max_depth := 2,
    l2_regularization := 1/10, min_samples_split := 2, min_samples_leaf := 1,
    categorical_features := [], feature_names_in_ := none, output_name := none }

/-- `cfgBase` with a stopping window of size 1 and more rounds. -/
def cfgK1 : Config :=
  { cfgBase with n_estimators := 6, n_iter_no_change := 1 }

/-- Concrete collaborators: identity preprocessing, constant relevancy,
a redundancy-ignoring scheme, a weak learner always predicting 3, and a
generator always drawing 0. -/
def clConst3 : Collab :=
  { relevancy_scorer := fun _ _ => [1]
    redundancy_matrix := fun _ => fun _ _ => 0
    mrmr_scheme := fun v _ => v
    tree_fit := fun _ _ _ => fun _ => 3
    rng := fun _ => 0
    fit_transform_row := fun _ _ r => r
    transform_row := fun _ _ r => r }

/-- Stated from the claim's words (for comparison with `windowVals`, the
window the code examines): the validation entries of the trailing window
of size `k` ending AT round `t`, i.e. rounds `t - k + 1 .. t`. -/
def specWindowEndingAt (k : ℕ) (hist : List (ℚ × ℚ)) (t : ℕ) : List ℚ :=
  (((hist.map Prod.snd).drop (t + 1 - k)).take k)

/-- The indices of the selected features of a fitted model, in feature
order (`enumerate(self.regressors_)` filtered on `is_selected`). -/
def selFeatures (M : Model) : List ℕ :=
  (List.range M.regressors_.length).filter
    (fun i => (M.regressors_.getD i default).is_selected)

section RoundLemmas

variable (cfg : Config) (cl : Collab) (X : List (List ℚ)) (y : List ℚ)
variable (Xval : List (List ℚ)) (yval : List ℚ)

lemma preState_succ (t : ℕ) :
    preState cfg cl X y Xval yval (t + 1) = stateAfter cfg cl X y Xval yval t := rfl

lemma stateAfter_eq_boost (t : ℕ) :
    stateAfter cfg cl X y Xval yval t =
      boost cfg cl (XtD cl X y) (XvD cl X y Xval) X.length
        (redArgAt cfg cl X y Xval yval t) t (preState cfg cl X y Xval yval t) := by
  cases t <;> rfl

lemma selection_history_stateAfter (t : ℕ) :
    (stateAfter cfg cl X y Xval yval t).selection_history =
      (preState cfg cl X y Xval yval t).selection_history ++
        [selectedAt cfg cl X y Xval yval t] := by
  cases t <;> rfl

lemma score_history_stateAfter (t : ℕ) :
    (stateAfter cfg cl X y Xval yval t).score_history =
      (preState cfg cl X y Xval yval t).score_history ++
        [(msq (stateAfter cfg cl X y Xval yval t).residual,
          msq (stateAfter cfg cl X y Xval yval t).residual_valid)] := by
  cases t <;> rfl

lemma residual_stateAfter (t : ℕ) :
    (stateAfter cfg cl X y Xval yval t).residual =
      List.zipWith (fun r x => r - learnerAt cfg cl X y Xval yval t x)
        (preState cfg cl X y Xval yval t).residual
        (colOf (XtD cl X y) (selectedAt cfg cl X y Xval yval t)) := by
  cases t <;> rfl

lemma residual_valid_stateAfter (t : ℕ) :
    (stateAfter cfg cl X y Xval yval t).residual_valid =
      List.zipWith (fun r x => r - learnerAt cfg cl X y Xval yval t x)
        (preState cfg cl X y Xval yval t).residual_valid
        (colOf (XvD cl X y Xval) (selectedAt cfg cl X y Xval yval t)) := by
  cases t <;> rfl

lemma count_stateAfter (t : ℕ) :
    (stateAfter cfg cl X y Xval yval t).selected_count_matrix =
      updateCountMatrix (preState cfg cl X y Xval yval t).selected_count_matrix
        (selectedAt cfg cl X y Xval yval t) := by
  cases t <;> rfl

lemma regressors_stateAfter (t : ℕ) :
    (stateAfter cfg cl X y Xval yval t).regressors =
      (preState cfg cl X y Xval yval t).regressors.set
        (selectedAt cfg cl X y Xval yval t)
        (((preState cfg cl X y Xval yval t).regressors.getD
            (selectedAt cfg cl X y Xval yval t) []) ++
          [learnerAt cfg cl X y Xval yval t]) := by
  cases t <;> rfl

lemma cursor_stateAfter (t : ℕ) :
    (stateAfter cfg cl X y Xval yval t).rng_cursor =
      (preState cfg cl X y Xval yval t).rng_cursor + X.length := by
  cases t <;> rfl

lemma cache_stateAfter (t : ℕ) :
    (stateAfter cfg cl X y Xval yval t).indexing_cache =
      (getIndexC (preState cfg cl X y Xval yval t).indexing_cache (XtD cl X y)
        (selectedAt cfg cl X y Xval yval t)).1 := by
  cases t <;> rfl

end RoundLemmas

section Invariants

variable (cfg : Config) (cl : Collab) (X : List (List ℚ)) (y : List ℚ)
variable (Xval : List (List ℚ)) (yval : List ℚ)

lemma selection_history_length (t : ℕ) :
    (stateAfter cfg cl X y Xval yval t).selection_history.length = t + 1 := by
  induction t with
  | zero => rfl
  | succ t ih =>
      rw [selection_history_stateAfter, List.length_append, preState_succ, ih]
      rfl

lemma score_history_length (t : ℕ) :
    (stateAfter cfg cl X y Xval yval t).score_history.length = t + 1 := by
  induction t with
  | zero => rfl
  | succ t ih =>
      rw [score_history_stateAfter, List.length_append, preState_succ, ih]
      rfl

lemma cursor_preState (t : ℕ) :
    (preState cfg cl X y Xval yval t).rng_cursor = t * X.length := by
  induction t with
  | zero => simp [preState, initSt]
  | succ t ih =>
      rw [preState_succ, cursor_stateAfter]
      cases t with
      | zero => simp [preState] at ih ⊢; omega
      | succ u => rw [preState_succ] at ih ⊢; rw [ih]; ring

lemma selection_history_getD (t : ℕ) :
    ∀ t', t' ≤ t →
      (stateAfter cfg cl X y Xval yval t).selection_history.getD t' 0 =
        selectedAt cfg cl X y Xval yval t' := by
  induction t with
  | zero =>
      intro t' ht'
      have h0 : t' = 0 := Nat.le_zero.mp ht'
      subst h0
      rw [selection_history_stateAfter]
      rfl
  | succ t ih =>
      intro t' ht'
      rw [selection_history_stateAfter]
      rcases Nat.lt_or_ge t' (t + 1) with h | h
      · have hlen : t' < (preState cfg cl X y Xval yval (t + 1)).selection_history.length := by
          rw [preState_succ, selection_history_length]; omega
        rw [List.getD_append _ _ _ _ hlen, preState_succ]
        exact ih t' (by omega)
      · have heq : t' = t + 1 := by omega
        subst heq
        have hlen : (preState cfg cl X y Xval yval (t + 1)).selection_history.length = t + 1 := by
          rw [preState_succ, selection_history_length]
        rw [List.getD_append_right _ _ _ _ (by omega), hlen]
        simp

lemma score_history_getD (t : ℕ) :
    ∀ t', t' ≤ t →
      (stateAfter cfg cl X y Xval yval t).score_history.getD t' (0, 0) =
        (msq (stateAfter cfg cl X y Xval yval t').residual,
         msq (stateAfter cfg cl X y Xval yval t').residual_valid) := by
  induction t with
  | zero =>
      intro t' ht'
      have h0 : t' = 0 := Nat.le_zero.mp ht'
      subst h0
      rw [score_history_stateAfter]
      rfl
  | succ t ih =>
      intro t' ht'
      rw [score_history_stateAfter]
      rcases Nat.lt_or_ge t' (t + 1) with h | h
      · have hlen : t' < (preState cfg cl X y Xval yval (t + 1)).score_history.length := by
          rw [preState_succ, score_history_length]; omega
        rw [List.getD_append _ _ _ _ hlen, preState_succ]
        exact ih t' (by omega)
      · have heq : t' = t + 1 := by omega
        subst heq
        have hlen : (preState cfg cl X y Xval yval (t + 1)).score_history.length = t + 1 := by
          rw [preState_succ, score_history_length]
        rw [List.getD_append_right _ _ _ _ (by omega), hlen]
        simp

end Invariants

section LoopChar

variable (cfg : Config) (cl : Collab) (X : List (List ℚ)) (y : List ℚ)
variable (Xval : List (List ℚ)) (yval : List ℚ)

lemma roundStep_preState (t : ℕ) (ht : 1 ≤ t) :
    roundStep cfg cl (XtD cl X y) (XvD cl X y Xval) X.length (nFeat X) (RD cl X y)
      t (preState cfg cl X y Xval yval t) = stateAfter cfg cl X y Xval yval t := by
  cases t with
  | zero => omega
  | succ u => rfl

lemma boostLoop_stop (fuel : ℕ) :
    ∀ t₀ t : ℕ, 1 ≤ t₀ → t₀ ≤ t → t < t₀ + fuel →
      Trigger cfg cl X y Xval yval t →
      (∀ u, t₀ ≤ u → u < t → ¬ Trigger cfg cl X y Xval yval u) →
      boostLoop cfg cl (XtD cl X y) (XvD cl X y Xval) X.length (nFeat X) (RD cl X y)
          fuel t₀ (preState cfg cl X y Xval yval t₀) =
        (stateAfter cfg cl X y Xval yval t, some t) := by
  induction fuel with
  | zero => intro t₀ t _ _ h; omega
  | succ fuel ih =>
      intro t₀ t ht₀ hle hlt htrig hfirst
      rw [boostLoop]
      rw [roundStep_preState cfg cl X y Xval yval t₀ ht₀]
      rcases Nat.eq_or_lt_of_le hle with heq | hlt'
      · subst heq
        have hcond : cfg.n_iter_no_change ≤ t₀ ∧
            nonDecr (windowVals cfg.n_iter_no_change
              (stateAfter cfg cl X y Xval yval t₀).score_history t₀) = true := htrig
        rw [if_pos hcond]
      · have hncond : ¬(cfg.n_iter_no_change ≤ t₀ ∧
            nonDecr (windowVals cfg.n_iter_no_change
              (stateAfter cfg cl X y Xval yval t₀).score_history t₀) = true) :=
          hfirst t₀ (Nat.le_refl _) hlt'
        rw [if_neg hncond]
        have hpre : stateAfter cfg cl X y Xval yval t₀ =
            preState cfg cl X y Xval yval (t₀ + 1) := rfl
        rw [hpre]
        exact ih (t₀ + 1) t (by omega) (by omega) (by omega) htrig
          (fun u hu hu' => hfirst u (by omega) hu')

lemma boostLoop_noStop (fuel : ℕ) :
    ∀ t₀ : ℕ, 1 ≤ t₀ →
      (∀ u, t₀ ≤ u → u < t₀ + fuel → ¬ Trigger cfg cl X y Xval yval u) →
      boostLoop cfg cl (XtD cl X y) (XvD cl X y Xval) X.length (nFeat X) (RD cl X y)
          fuel t₀ (preState cfg cl X y Xval yval t₀) =
        (preState cfg cl X y Xval yval (t₀ + fuel), none) := by
  induction fuel with
  | zero => intro t₀ _ _; rfl
  | succ fuel ih =>
      intro t₀ ht₀ hall
      rw [boostLoop]
      rw [roundStep_preState cfg cl X y Xval yval t₀ ht₀]
      have hncond : ¬(cfg.n_iter_no_change ≤ t₀ ∧
          nonDecr (windowVals cfg.n_iter_no_change
            (stateAfter cfg cl X y Xval yval t₀).score_history t₀) = true) :=
        hall t₀ (Nat.le_refl _) (by omega)
      rw [if_neg hncond]
      have hpre : stateAfter cfg cl X y Xval yval t₀ =
          preState cfg cl X y Xval yval (t₀ + 1) := rfl
      rw [hpre]
      have := ih (t₀ + 1) (by omega) (fun u hu hu' => hall u (by omega) (by omega))
      rw [this]
      have harith : t₀ + 1 + fuel = t₀ + (fuel + 1) := by omega
      rw [harith]

lemma boostLoop_shape (fuel : ℕ) :
    ∀ t₀ : ℕ, 1 ≤ t₀ →
      (∃ T, t₀ ≤ T ∧ T < t₀ + fuel ∧
          boostLoop cfg cl (XtD cl X y) (XvD cl X y Xval) X.length (nFeat X)
              (RD cl X y) fuel t₀ (preState cfg cl X y Xval yval t₀) =
            (stateAfter cfg cl X y Xval yval T, some T)) ∨
        boostLoop cfg cl (XtD cl X y) (XvD cl X y Xval) X.length (nFeat X)
            (RD cl X y) fuel t₀ (preState cfg cl X y Xval yval t₀) =
          (preState cfg cl X y Xval yval (t₀ + fuel), none) := by
  induction fuel with
  | zero => intro t₀ _; right; rfl
  | succ fuel ih =>
      intro t₀ ht₀
      rw [boostLoop, roundStep_preState cfg cl X y Xval yval t₀ ht₀]
      by_cases htrig : Trigger cfg cl X y Xval yval t₀
      · left
        have hcond : cfg.n_iter_no_change ≤ t₀ ∧
            nonDecr (windowVals cfg.n_iter_no_change
              (stateAfter cfg cl X y Xval yval t₀).score_history t₀) = true := htrig
        exact ⟨t₀, Nat.le_refl _, by omega, by rw [if_pos hcond]⟩
      · have hncond : ¬(cfg.n_iter_no_change ≤ t₀ ∧
            nonDecr (windowVals cfg.n_iter_no_change
              (stateAfter cfg cl X y Xval yval t₀).score_history t₀) = true) := htrig
        rw [if_neg hncond]
        have hpre : stateAfter cfg cl X y Xval yval t₀ =
            preState cfg cl X y Xval yval (t₀ + 1) := rfl
        rw [hpre]
        rcases ih (t₀ + 1) (by omega) with ⟨T, hT1, hT2, hT3⟩ | hnone
        · exact Or.inl ⟨T, by omega, by omega, hT3⟩
        · right
          rw [hnone]
          have harith : t₀ + 1 + fuel = t₀ + (fuel + 1) := by omega
          rw [harith]

lemma runFit_eq_loop :
    runFit cfg cl X y Xval yval =
      boostLoop cfg cl (XtD cl X y) (XvD cl X y Xval) X.length (nFeat X) (RD cl X y)
        (cfg.n_estimators - 1) 1 (preState cfg cl X y Xval yval 1) := rfl

lemma preState_eq_stateAfter (t : ℕ) (ht : 1 ≤ t) :
    preState cfg cl X y Xval yval t = stateAfter cfg cl X y Xval yval (t - 1) := by
  cases t with
  | zero => omega
  | succ u => rfl

/-- The state returned by `_fit` is the state after the last effective
round, and at least one round always runs. -/
lemma runFit_final (hne : 1 ≤ cfg.n_estimators) :
    (runFit cfg cl X y Xval yval).1 =
        stateAfter cfg cl X y Xval yval (effRounds cfg cl X y Xval yval - 1) ∧
      1 ≤ effRounds cfg cl X y Xval yval ∧
      effRounds cfg cl X y Xval yval ≤ cfg.n_estimators := by
  rcases boostLoop_shape cfg cl X y Xval yval (cfg.n_estimators - 1) 1 (Nat.le_refl _)
    with ⟨T, hT1, hT2, hT3⟩ | hnone
  · have he : effRounds cfg cl X y Xval yval = T + 1 := by
      rw [effRounds, runFit_eq_loop, hT3]
    have hs : (runFit cfg cl X y Xval yval).1 = stateAfter cfg cl X y Xval yval T := by
      rw [runFit_eq_loop, hT3]
    rw [he, hs]
    refine ⟨by simp, by omega, by omega⟩
  · have h1 : 1 + (cfg.n_estimators - 1) = cfg.n_estimators := by omega
    have he : effRounds cfg cl X y Xval yval = cfg.n_estimators := by
      rw [effRounds, runFit_eq_loop, hnone]
    have hs : (runFit cfg cl X y Xval yval).1 =
        preState cfg cl X y Xval yval cfg.n_estimators := by
      rw [runFit_eq_loop, hnone, h1]
    rw [he, hs]
    exact ⟨preState_eq_stateAfter cfg cl X y Xval yval _ hne, hne, Nat.le_refl _⟩

end LoopChar

section CountMatrix

lemma addRow_addCol_diag (M : Mat) (f : ℕ) :
    addCol (addRow M f) f f f = M f f + 1 + 1 := by
  simp [addCol, addRow]

lemma updateCountMatrix_apply (M : Mat) (f i j : ℕ) :
    updateCountMatrix M f i j =
      if i = f ∧ j = f then 0
      else M i j + (if i = f then 1 else 0) + (if j = f then 1 else 0) := by
  unfold updateCountMatrix setEntry addCol addRow
  by_cases hi : i = f <;> by_cases hj : j = f <;> simp [hi, hj]

lemma updateCountMatrix_preserves (M : Mat) (f : ℕ) (h : SymZeroDiag M) :
    SymZeroDiag (updateCountMatrix M f) := by
  obtain ⟨hsym, hdiag⟩ := h
  constructor
  · intro i j
    rw [updateCountMatrix_apply, updateCountMatrix_apply, hsym i j]
    by_cases hi : i = f <;> by_cases hj : j = f <;> simp [hi, hj]
  · intro i
    rw [updateCountMatrix_apply]
    by_cases hi : i = f <;> simp [hi, hdiag i]

section

variable (cfg : Config) (cl : Collab) (X : List (List ℚ)) (y : List ℚ)
variable (Xval : List (List ℚ)) (yval : List ℚ)

lemma count_SymZeroDiag_stateAfter (t : ℕ) :
    SymZeroDiag ((stateAfter cfg cl X y Xval yval t).selected_count_matrix) := by
  induction t with
  | zero =>
      rw [count_stateAfter]
      exact updateCountMatrix_preserves _ _ ⟨fun _ _ => rfl, fun _ => rfl⟩
  | succ t ih =>
      rw [count_stateAfter, preState_succ]
      exact updateCountMatrix_preserves _ _ ih

lemma count_SymZeroDiag_runFit :
    SymZeroDiag ((runFit cfg cl X y Xval yval).1.selected_count_matrix) := by
  rcases boostLoop_shape cfg cl X y Xval yval (cfg.n_estimators - 1) 1 (Nat.le_refl _)
    with ⟨T, _, _, hT3⟩ | hnone
  · rw [runFit_eq_loop, hT3]
    exact count_SymZeroDiag_stateAfter cfg cl X y Xval yval T
  · rw [runFit_eq_loop, hnone]
    cases h : 1 + (cfg.n_estimators - 1) with
    | zero => omega
    | succ u =>
        show SymZeroDiag ((preState cfg cl X y Xval yval (u + 1)).selected_count_matrix)
        rw [preState_succ]
        exact count_SymZeroDiag_stateAfter cfg cl X y Xval yval u

end

end CountMatrix

section ArgmaxLemmas

lemma getD_map_range {α : Type} (d : α) (n i : ℕ) (f : ℕ → α) (h : i < n) :
    ((List.range n).map f).getD i d = f i := by
  rw [List.getD_eq_getElem _ _ (by simpa using h)]
  simp

lemma getElem_ne_of_lt_indexOf {l : List ℚ} {a : ℚ} {j : ℕ}
    (hj : j < l.indexOf a) (hjl : j < l.length) : l[j] ≠ a := by
  induction l generalizing j with
  | nil => simp at hjl
  | cons b bs ih =>
      by_cases hba : b = a
      · subst hba
        rw [List.indexOf_cons_self] at hj
        omega
      · rw [List.indexOf_cons_ne _ hba] at hj
        cases j with
        | zero => simpa using hba
        | succ j =>
            have hjl' : j < bs.length := by simpa using hjl
            have := ih (by omega) hjl'
            simpa using this

lemma npArgmax_eq_indexOf (l : List ℚ) (v : ℚ) (hm : l.maximum = (v : WithBot ℚ)) :
    npArgmax l = l.indexOf v := by
  simp [npArgmax, hm]

lemma npArgmax_lt_length (l : List ℚ) (h : l ≠ []) : npArgmax l < l.length := by
  cases hm : l.maximum with
  | bot => exact absurd (List.maximum_eq_bot.mp hm) h
  | coe v =>
      rw [npArgmax_eq_indexOf l v hm]
      exact List.indexOf_lt_length.mpr (List.maximum_mem hm)

lemma npArgmax_getD (l : List ℚ) (v : ℚ) (hm : l.maximum = (v : WithBot ℚ)) :
    l.getD (npArgmax l) 0 = v := by
  have hmem : v ∈ l := List.maximum_mem hm
  have hlt : l.indexOf v < l.length := List.indexOf_lt_length.mpr hmem
  rw [npArgmax_eq_indexOf l v hm]
  rw [List.getD_eq_getElem _ _ hlt]
  exact List.getElem_indexOf hlt

lemma npArgmax_is_max (l : List ℚ) :
    ∀ j, j < l.length → l.getD j 0 ≤ l.getD (npArgmax l) 0 := by
  intro j hj
  have hne : l ≠ [] := by
    intro h0
    rw [h0] at hj
    simp at hj
  cases hm : l.maximum with
  | bot => exact absurd (List.maximum_eq_bot.mp hm) hne
  | coe v =>
      rw [npArgmax_getD l v hm]
      have hmem : l.getD j 0 ∈ l := by
        rw [List.getD_eq_getElem _ _ hj]
        exact List.getElem_mem hj
      have := List.le_maximum_of_mem hmem hm
      exact_mod_cast this

lemma npArgmax_first (l : List ℚ) :
    ∀ j, j < npArgmax l → l.getD j 0 < l.getD (npArgmax l) 0 := by
  intro j hj
  have hne : l ≠ [] := by
    intro h0
    rw [h0] at hj
    simp [npArgmax, List.maximum_nil] at hj
  have hlen : npArgmax l < l.length := npArgmax_lt_length l hne
  have hjlen : j < l.length := by omega
  cases hm : l.maximum with
  | bot => exact absurd (List.maximum_eq_bot.mp hm) hne
  | coe v =>
      have hidx : npArgmax l = l.indexOf v := npArgmax_eq_indexOf l v hm
      have hne' : l[j] ≠ v :=
        getElem_ne_of_lt_indexOf (by rw [← hidx]; exact hj) hjlen
      have hle : l.getD j 0 ≤ l.getD (npArgmax l) 0 := npArgmax_is_max l j hjlen
      rw [npArgmax_getD l v hm] at hle ⊢
      rw [List.getD_eq_getElem _ _ hjlen] at hle ⊢
      exact lt_of_le_of_ne hle hne'

end ArgmaxLemmas

section ListHelpers

lemma getD_set_self {α : Type} (l : List α) (i : ℕ) (v d : α) (h : i < l.length) :
    (l.set i v).getD i d = v := by
  rw [List.getD_eq_getElem _ _ (by simpa using h)]
  exact List.getElem_set_self (by simpa using h)

lemma getD_set_ne {α : Type} (l : List α) (i j : ℕ) (v d : α) (h : j ≠ i) :
    (l.set i v).getD j d = l.getD j d := by
  rw [List.getD_eq_getD_get?, List.getD_eq_getD_get?, List.get?_eq_getElem?,
    List.get?_eq_getElem?, List.getElem?_set_ne (Ne.symm h)]

lemma getD_replicate_self {α : Type} (n i : ℕ) (a : α) :
    (List.replicate n a).getD i a = a := by
  rcases Nat.lt_or_ge i n with h | h
  · rw [List.getD_eq_getElem _ _ (by simpa using h)]
    exact List.getElem_replicate _ _
  · exact List.getD_eq_default _ _ (by simpa using h)

lemma sIns_length (key : ℕ → ℚ) (i : ℕ) (l : List ℕ) :
    (sIns key i l).length = l.length + 1 := by
  induction l with
  | nil => rfl
  | cons j js ih =>
      rw [sIns]
      by_cases h : key j ≤ key i <;> simp [h, ih]

lemma sortIdx_length (key : ℕ → ℚ) (l : List ℕ) :
    (sortIdx key l).length = l.length := by
  induction l with
  | nil => rfl
  | cons i is ih => rw [sortIdx, sIns_length, ih, List.length_cons]

lemma argsortQ_length (l : List ℚ) : (argsortQ l).length = l.length := by
  rw [argsortQ, sortIdx_length, List.length_range]

lemma colOf_length (M : List (List ℚ)) (f : ℕ) : (colOf M f).length = M.length :=
  List.length_map _ _

lemma XtD_length (cl : Collab) (X : List (List ℚ)) (y : List ℚ) :
    (XtD cl X y).length = X.length :=
  List.length_map _ _

end ListHelpers

section SubsampleLemmas

variable (cfg : Config) (cl : Collab) (X : List (List ℚ)) (y : List ℚ)
variable (Xval : List (List ℚ)) (yval : List ℚ)

/-- Cache well-formedness: every filled slot holds the ascending sort
order of that feature's column of the training matrix. -/
def CacheOK (t : ℕ) : Prop :=
  ∀ i, (preState cfg cl X y Xval yval t).indexing_cache.getD i none = none ∨
    (preState cfg cl X y Xval yval t).indexing_cache.getD i none =
      some (argsortQ (colOf (XtD cl X y) i))

lemma cacheOK (t : ℕ) : CacheOK cfg cl X y Xval yval t := by
  induction t with
  | zero =>
      intro i
      left
      exact getD_replicate_self _ _ _
  | succ t ih =>
      intro i
      have hc : (preState cfg cl X y Xval yval (t + 1)).indexing_cache =
          (getIndexC (preState cfg cl X y Xval yval t).indexing_cache (XtD cl X y)
            (selectedAt cfg cl X y Xval yval t)).1 := by
        rw [preState_succ, cache_stateAfter]
      rw [hc]
      rcases ih (selectedAt cfg cl X y Xval yval t) with hnone | hsome
      · simp only [getIndexC, hnone]
        by_cases hi : i = selectedAt cfg cl X y Xval yval t
        · by_cases hl : selectedAt cfg cl X y Xval yval t <
              (preState cfg cl X y Xval yval t).indexing_cache.length
          · right
            rw [hi]
            exact getD_set_self _ _ _ _ hl
          · left
            rw [List.set_eq_of_length_le (by omega), hi]
            exact hnone
        · rw [getD_set_ne _ _ _ _ _ hi]
          exact ih i
      · simp only [getIndexC, hsome]
        exact ih i

lemma indexAt_eq (t : ℕ) :
    indexAt cfg cl X y Xval yval t =
      argsortQ (colOf (XtD cl X y) (selectedAt cfg cl X y Xval yval t)) := by
  rw [indexAt]
  rcases cacheOK cfg cl X y Xval yval t (selectedAt cfg cl X y Xval yval t)
    with hnone | hsome
  · simp only [getIndexC, hnone]
  · simp only [getIndexC, hsome]

lemma indexAt_length (t : ℕ) :
    (indexAt cfg cl X y Xval yval t).length = X.length := by
  rw [indexAt_eq, argsortQ_length, colOf_length, XtD_length]

lemma mem_keptAt (t j : ℕ) (hj : j ∈ keptAt cfg cl X y Xval yval t) :
    j < X.length := by
  rw [keptAt] at hj
  have := List.mem_filter.mp hj
  exact List.mem_range.mp this.1

lemma regressors_length_preState (t : ℕ) :
    (preState cfg cl X y Xval yval t).regressors.length = nFeat X := by
  induction t with
  | zero => exact List.length_replicate _ _
  | succ t ih =>
      rw [preState_succ, regressors_stateAfter, List.length_set]
      exact ih

lemma xsTrainAt_eq (t : ℕ) :
    xsTrainAt cfg cl X y Xval yval t =
      ((keptAt cfg cl X y Xval yval t).map
          (fun j => (indexAt cfg cl X y Xval yval t).getD j 0)).map
        (fun i => (colOf (XtD cl X y) (selectedAt cfg cl X y Xval yval t)).getD i 0) := by
  rw [xsTrainAt, List.map_map]
  apply List.map_congr_left
  intro j hj
  have hjm : j < X.length := mem_keptAt cfg cl X y Xval yval t j hj
  have hjl : j < (indexAt cfg cl X y Xval yval t).length := by
    rw [indexAt_length]; exact hjm
  simp only [Function.comp_apply]
  show (XsortedAt cfg cl X y Xval yval t).getD j 0 = _
  rw [XsortedAt, List.getD_eq_getElem _ _ (by rw [List.length_map]; exact hjl),
    List.getElem_map, List.getD_eq_getElem _ _ hjl]

lemma ysTrainAt_eq (t : ℕ) :
    ysTrainAt cfg cl X y Xval yval t =
      ((keptAt cfg cl X y Xval yval t).map
          (fun j => (indexAt cfg cl X y Xval yval t).getD j 0)).map
        (fun i => ((preState cfg cl X y Xval yval t).residual).getD i 0) := by
  rw [ysTrainAt, List.map_map]
  apply List.map_congr_left
  intro j hj
  have hjm : j < X.length := mem_keptAt cfg cl X y Xval yval t j hj
  have hjl : j < (indexAt cfg cl X y Xval yval t).length := by
    rw [indexAt_length]; exact hjm
  simp only [Function.comp_apply]
  show (ysortedAt cfg cl X y Xval yval t).getD j 0 = _
  rw [ysortedAt, List.getD_eq_getElem _ _ (by rw [List.length_map]; exact hjl),
    List.getElem_map, List.getD_eq_getElem _ _ hjl]

end SubsampleLemmas

/-- C3: the selected-count matrix starts all zeros; each round,
immediately after feature `f` is selected, 1.0 is added to every entry
of row `f` and of column `f` (double-incrementing the diagonal cell
`(f, f)`) and then `(f, f)` is reset to 0.0; consequently after any
completed fit the matrix is symmetric with an all-zero diagonal. -/
theorem claim_C3 (cfg : Config) (cl : Collab) (X : List (List ℚ)) (y : List ℚ)
    (Xval : List (List ℚ)) (yval : List ℚ) :
    (∀ i j, (preState cfg cl X y Xval yval 0).selected_count_matrix i j = 0)
    ∧ (∀ t, (stateAfter cfg cl X y Xval yval t).selected_count_matrix =
        updateCountMatrix (preState cfg cl X y Xval yval t).selected_count_matrix
          (selectedAt cfg cl X y Xval yval t))
    ∧ (∀ (M : Mat) (f : ℕ),
        addCol (addRow M f) f f f = M f f + 1 + 1
        ∧ updateCountMatrix M f f f = 0
        ∧ ∀ i j, ¬(i = f ∧ j = f) →
            updateCountMatrix M f i j =
              M i j + (if i = f then 1 else 0) + (if j = f then 1 else 0))
    ∧ (∀ i j, (runFit cfg cl X y Xval yval).1.selected_count_matrix i j =
        (runFit cfg cl X y Xval yval).1.selected_count_matrix j i)
    ∧ (∀ i, (runFit cfg cl X y Xval yval).1.selected_count_matrix i i = 0) := by
  refine ⟨fun i j => rfl,
    fun t => count_stateAfter cfg cl X y Xval yval t,
    fun M f => ⟨addRow_addCol_diag M f,
      by rw [updateCountMatrix_apply]; simp,
      fun i j hij => by rw [updateCountMatrix_apply, if_neg hij]⟩,
    (count_SymZeroDiag_runFit cfg cl X y Xval yval).1,
    (count_SymZeroDiag_runFit cfg cl X y Xval yval).2⟩

theorem claim_C3_witness :
    updateCountMatrix (fun _ _ => (0 : ℚ)) 0 0 1 = 1 := by
  have h := (claim_C3 cfgBase clConst3 [[0]] [0] [[0]] [5]).2.2.1 (fun _ _ => (0 : ℚ)) 0
  have h2 := h.2.2 0 1 (by decide)
  simpa using h2

/-- C9: invoking `predict`, `contribution_frame`, `explain` or
`plot_model_information` on an unfitted model fails with the
not-fitted error, and that guard is the only error path of these
operations: each errors exactly when the model is unfitted, a freshly
constructed model is unfitted, and a completed `fit` marks the model
fitted (so none of the four operations raises afterwards). -/
theorem claim_C9 :
    (∀ (M : Model) (X : List (List ℚ)),
      (predictE M X = Except.error FitError.notFitted ↔ M.is_fitted = false)
      ∧ (contribution_frameE M X = Except.error FitError.notFitted ↔ M.is_fitted = false)
      ∧ (explainE M X = Except.error FitError.notFitted ↔ M.is_fitted = false)
      ∧ (plot_model_informationE M = Except.error FitError.notFitted ↔ M.is_fitted = false))
    ∧ (∀ cfg : Config, (newModel cfg).is_fitted = false)
    ∧ (∀ (cfg : Config) (cl : Collab) (X : List (List ℚ)) (y : List ℚ)
        (Xval : List (List ℚ)) (yval : List ℚ),
        (fitModel cfg cl X y Xval yval).is_fitted = true) := by
  refine ⟨fun M X => ?_, fun _ => rfl, fun _ _ _ _ _ _ => rfl⟩
  by_cases h : M.is_fitted
  · refine ⟨?_, ?_, ?_, ?_⟩ <;>
      simp [predictE, contribution_frameE, explainE, plot_model_informationE, h]
  · refine ⟨?_, ?_, ?_, ?_⟩ <;>
      simp [predictE, contribution_frameE, explainE, plot_model_informationE, h]

/-- C4: the redundancy contribution of round 0 is the exact scalar 0.0;
for every round `t ≥ 1` the redundancy vector equals the elementwise
product of the static redundancy matrix (computed once from the full
preprocessed training matrix) with the current selected-count matrix,
summed over each row and divided by `t`; and round `t` of the loop is a
boost with exactly this redundancy argument. -/
theorem claim_C4 (cfg : Config) (cl : Collab) (X : List (List ℚ)) (y : List ℚ)
    (Xval : List (List ℚ)) (yval : List ℚ) (t : ℕ) (ht : 1 ≤ t) :
    redArgAt cfg cl X y Xval yval 0 = NpArr.scalar 0
    ∧ redArgAt cfg cl X y Xval yval t =
        NpArr.vec (redVec (RD cl X y)
          ((preState cfg cl X y Xval yval t).selected_count_matrix) (nFeat X) t)
    ∧ (∀ i, i < nFeat X →
        (redVec (RD cl X y)
            ((preState cfg cl X y Xval yval t).selected_count_matrix) (nFeat X) t).getD i 0 =
          ((List.range (nFeat X)).map
              (fun j => RD cl X y i j *
                (preState cfg cl X y Xval yval t).selected_count_matrix i j)).sum / (t : ℚ))
    ∧ RD cl X y = cl.redundancy_matrix (XtD cl X y)
    ∧ stateAfter cfg cl X y Xval yval t =
        boost cfg cl (XtD cl X y) (XvD cl X y Xval) X.length
          (redArgAt cfg cl X y Xval yval t) t (preState cfg cl X y Xval yval t) := by
  refine ⟨rfl, ?_, ?_, rfl, stateAfter_eq_boost cfg cl X y Xval yval t⟩
  · cases t with
    | zero => omega
    | succ u => rfl
  · intro i hi
    exact getD_map_range 0 (nFeat X) i _ hi

theorem claim_C4_witness :
    redArgAt cfgBase clConst3 [[0]] [0] [[0]] [5] 0 = NpArr.scalar 0 ∧
      redArgAt cfgBase clConst3 [[0]] [0] [[0]] [5] 1 =
        NpArr.vec (redVec (RD clConst3 [[0]] [0])
          ((preState cfgBase clConst3 [[0]] [0] [[0]] [5] 1).selected_count_matrix) 1 1) := by
  have h := claim_C4 cfgBase clConst3 [[0]] [0] [[0]] [5] 1 (by decide)
  exact ⟨h.1, h.2.1⟩

/-- C8: every round selects the feature `argmax(combine(relevancy,
redundancy))`, ties resolved by the first index attaining the maximum,
and that index is recorded in the selection history at position `t`. -/
theorem claim_C8 (cfg : Config) (cl : Collab) (X : List (List ℚ)) (y : List ℚ)
    (Xval : List (List ℚ)) (yval : List ℚ) (t : ℕ)
    (hne : 1 ≤ cfg.n_estimators) (ht : t < effRounds cfg cl X y Xval yval) :
    (fitModel cfg cl X y Xval yval).selection_history_.getD t 0 =
        npArgmax (scoreAt cfg cl X y Xval yval t)
    ∧ selectedAt cfg cl X y Xval yval t = npArgmax (scoreAt cfg cl X y Xval yval t)
    ∧ (∀ j, j < (scoreAt cfg cl X y Xval yval t).length →
        (scoreAt cfg cl X y Xval yval t).getD j 0 ≤
          (scoreAt cfg cl X y Xval yval t).getD
            (npArgmax (scoreAt cfg cl X y Xval yval t)) 0)
    ∧ (∀ j, j < npArgmax (scoreAt cfg cl X y Xval yval t) →
        (scoreAt cfg cl X y Xval yval t).getD j 0 <
          (scoreAt cfg cl X y Xval yval t).getD
            (npArgmax (scoreAt cfg cl X y Xval yval t)) 0) := by
  obtain ⟨hstate, h1, _⟩ := runFit_final cfg cl X y Xval yval hne
  refine ⟨?_, rfl, npArgmax_is_max _, npArgmax_first _⟩
  have hhist : (fitModel cfg cl X y Xval yval).selection_history_ =
      (runFit cfg cl X y Xval yval).1.selection_history.take
        (effRounds cfg cl X y Xval yval) := rfl
  rw [hhist, hstate]
  have hlen : (stateAfter cfg cl X y Xval yval
      (effRounds cfg cl X y Xval yval - 1)).selection_history.length =
      effRounds cfg cl X y Xval yval := by
    rw [selection_history_length]
    omega
  rw [List.take_of_length_le (by rw [hlen])]
  exact selection_history_getD cfg cl X y Xval yval _ t (by omega)

lemma msq_nonneg (l : List ℚ) : 0 ≤ msq l := by
  rw [msq, mean]
  apply div_nonneg
  · apply List.sum_nonneg
    intro x hx
    obtain ⟨a, _, ha⟩ := List.mem_map.mp hx
    rw [← ha]
    exact mul_self_nonneg a
  · exact_mod_cast Nat.zero_le _

/-- C2: each round the loop's single generator consumes exactly `m`
draws in round order (the cursor advances from `t*m` to `(t+1)*m`);
position `j` is kept iff `draw[j] ≤ row_subsample`; and the weak learner
of the round is fit on the subsampled sorted feature/residual pair, both
obtained through one and the same index list into the original rows, so
the mask is applied consistently with the exact source ordering used to
index `X_sorted` and `y_sorted`. -/
theorem claim_C2 (cfg : Config) (cl : Collab) (X : List (List ℚ)) (y : List ℚ)
    (Xval : List (List ℚ)) (yval : List ℚ) (t : ℕ)
    (hsel : selectedAt cfg cl X y Xval yval t < nFeat X) :
    (preState cfg cl X y Xval yval t).rng_cursor = t * X.length
    ∧ (stateAfter cfg cl X y Xval yval t).rng_cursor = t * X.length + X.length
    ∧ keptAt cfg cl X y Xval yval t =
        (List.range X.length).filter
          (fun j => cl.rng (t * X.length + j) ≤ cfg.row_subsample)
    ∧ (stateAfter cfg cl X y Xval yval t).regressors.getD
          (selectedAt cfg cl X y Xval yval t) [] =
        (preState cfg cl X y Xval yval t).regressors.getD
            (selectedAt cfg cl X y Xval yval t) [] ++
          [learnerAt cfg cl X y Xval yval t]
    ∧ learnerAt cfg cl X y Xval yval t =
        cl.tree_fit cfg (xsTrainAt cfg cl X y Xval yval t)
          (ysTrainAt cfg cl X y Xval yval t)
    ∧ xsTrainAt cfg cl X y Xval yval t =
        ((keptAt cfg cl X y Xval yval t).map
            (fun j => (indexAt cfg cl X y Xval yval t).getD j 0)).map
          (fun i => (colOf (XtD cl X y) (selectedAt cfg cl X y Xval yval t)).getD i 0)
    ∧ ysTrainAt cfg cl X y Xval yval t =
        ((keptAt cfg cl X y Xval yval t).map
            (fun j => (indexAt cfg cl X y Xval yval t).getD j 0)).map
          (fun i => ((preState cfg cl X y Xval yval t).residual).getD i 0)
    ∧ indexAt cfg cl X y Xval yval t =
        argsortQ (colOf (XtD cl X y) (selectedAt cfg cl X y Xval yval t)) := by
  refine ⟨cursor_preState cfg cl X y Xval yval t, ?_, ?_, ?_, rfl,
    xsTrainAt_eq cfg cl X y Xval yval t, ysTrainAt_eq cfg cl X y Xval yval t,
    indexAt_eq cfg cl X y Xval yval t⟩
  · rw [cursor_stateAfter, cursor_preState]
  · rw [keptAt, cursor_preState]
  · rw [regressors_stateAfter]
    exact getD_set_self _ _ _ _
      (by rw [regressors_length_preState]; exact hsel)

theorem claim_C2_witness :
    keptAt cfgBase clConst3 [[0]] [0] [[0]] [5] 0 =
      (List.range 1).filter
        (fun j => clConst3.rng (0 * 1 + j) ≤ cfgBase.row_subsample) := by
  have h := claim_C2 cfgBase clConst3 [[0]] [0] [[0]] [5] 0
    (by with_unfolding_all decide)
  simpa using h.2.2.1

theorem claim_C8_witness :
    (fitModel cfgBase clConst3 [[0]] [0] [[0]] [5]).selection_history_.getD 0 0 =
      npArgmax (scoreAt cfgBase clConst3 [[0]] [0] [[0]] [5] 0) :=
  (claim_C8 cfgBase clConst3 [[0]] [0] [[0]] [5] 0 (by decide)
    (by with_unfolding_all decide)).1

/-- C7: during fitting, slot `t` of the score history holds the pair
(mean squared training residual, mean squared validation residual) of
the state right after round `t`, for every effective round; the final
`score_history_` is the elementwise square root of that raw sequence,
taken exactly once, so its entries are non-negative and their squares
recover the raw mean squared errors. -/
theorem claim_C7 (cfg : Config) (cl : Collab) (X : List (List ℚ)) (y : List ℚ)
    (Xval : List (List ℚ)) (yval : List ℚ) (hne : 1 ≤ cfg.n_estimators) :
    (fitModel cfg cl X y Xval yval).rawScoreHistory.length =
        effRounds cfg cl X y Xval yval
    ∧ (∀ t, t < (fitModel cfg cl X y Xval yval).rawScoreHistory.length →
        (fitModel cfg cl X y Xval yval).rawScoreHistory.getD t (0, 0) =
          (msq (stateAfter cfg cl X y Xval yval t).residual,
           msq (stateAfter cfg cl X y Xval yval t).residual_valid))
    ∧ score_history_ (fitModel cfg cl X y Xval yval) =
        (fitModel cfg cl X y Xval yval).rawScoreHistory.map
          (fun p => (Real.sqrt (p.1 : ℝ), Real.sqrt (p.2 : ℝ)))
    ∧ (∀ t, t < (fitModel cfg cl X y Xval yval).rawScoreHistory.length →
        (score_history_ (fitModel cfg cl X y Xval yval)).getD t (0, 0) =
            (Real.sqrt (((fitModel cfg cl X y Xval yval).rawScoreHistory.getD t (0, 0)).1 : ℝ),
             Real.sqrt (((fitModel cfg cl X y Xval yval).rawScoreHistory.getD t (0, 0)).2 : ℝ))
          ∧ 0 ≤ ((score_history_ (fitModel cfg cl X y Xval yval)).getD t (0, 0)).1
          ∧ 0 ≤ ((score_history_ (fitModel cfg cl X y Xval yval)).getD t (0, 0)).2
          ∧ ((score_history_ (fitModel cfg cl X y Xval yval)).getD t (0, 0)).1 ^ 2 =
              (((fitModel cfg cl X y Xval yval).rawScoreHistory.getD t (0, 0)).1 : ℝ)
          ∧ ((score_history_ (fitModel cfg cl X y Xval yval)).getD t (0, 0)).2 ^ 2 =
              (((fitModel cfg cl X y Xval yval).rawScoreHistory.getD t (0, 0)).2 : ℝ)) := by
  obtain ⟨hstate, h1, _⟩ := runFit_final cfg cl X y Xval yval hne
  have hraw : (fitModel cfg cl X y Xval yval).rawScoreHistory =
      (runFit cfg cl X y Xval yval).1.score_history := rfl
  have hlen : (fitModel cfg cl X y Xval yval).rawScoreHistory.length =
      effRounds cfg cl X y Xval yval := by
    rw [hraw, hstate, score_history_length]
    omega
  have hentry : ∀ t, t < (fitModel cfg cl X y Xval yval).rawScoreHistory.length →
      (fitModel cfg cl X y Xval yval).rawScoreHistory.getD t (0, 0) =
        (msq (stateAfter cfg cl X y Xval yval t).residual,
         msq (stateAfter cfg cl X y Xval yval t).residual_valid) := by
    intro t ht
    rw [hlen] at ht
    rw [hraw, hstate]
    exact score_history_getD cfg cl X y Xval yval _ t (by omega)
  refine ⟨hlen, hentry, rfl, ?_⟩
  intro t ht
  have hmap : (score_history_ (fitModel cfg cl X y Xval yval)).getD t (0, 0) =
      (Real.sqrt (((fitModel cfg cl X y Xval yval).rawScoreHistory.getD t (0, 0)).1 : ℝ),
       Real.sqrt (((fitModel cfg cl X y Xval yval).rawScoreHistory.getD t (0, 0)).2 : ℝ)) := by
    rw [score_history_]
    rw [List.getD_eq_getElem _ _ (by rw [List.length_map]; exact ht),
      List.getElem_map, List.getD_eq_getElem _ _ ht]
  refine ⟨hmap, ?_, ?_, ?_, ?_⟩
  · rw [hmap]; exact Real.sqrt_nonneg _
  · rw [hmap]; exact Real.sqrt_nonneg _
  · rw [hmap]
    apply Real.sq_sqrt
    have := hentry t ht
    rw [this]
    exact_mod_cast msq_nonneg _
  · rw [hmap]
    apply Real.sq_sqrt
    have := hentry t ht
    rw [this]
    exact_mod_cast msq_nonneg _

lemma sumVecs_length : ∀ (vs : List (List ℚ)) (L : ℕ), vs ≠ [] →
    (∀ v ∈ vs, v.length = L) → (sumVecs vs).length = L
  | [], _, h, _ => absurd rfl h
  | [v], _, _, hv => by
      show v.length = _
      exact hv v (List.mem_singleton_self v)
  | v :: w :: ws, L, _, hv => by
      have h1 : v.length = L := hv v (List.mem_cons_self _ _)
      have h2 : (sumVecs (w :: ws)).length = L :=
        sumVecs_length (w :: ws) L (by simp)
          (fun u hu => hv u (List.mem_cons_of_mem _ hu))
      show (List.zipWith (fun a b => a + b) v (sumVecs (w :: ws))).length = L
      rw [List.length_zipWith, h1, h2, Nat.min_self]

lemma sumVecs_getD : ∀ (vs : List (List ℚ)) (L j : ℕ),
    (∀ v ∈ vs, v.length = L) → j < L →
    (sumVecs vs).getD j 0 = (vs.map (fun v => v.getD j 0)).sum
  | [], _, j, _, _ => by
      show (List.getD [] j 0) = _
      simp
  | [v], _, j, _, _ => by
      show v.getD j 0 = ([v].map (fun v => v.getD j 0)).sum
      simp
  | v :: w :: ws, L, j, hv, hj => by
      have h1 : v.length = L := hv v (List.mem_cons_self _ _)
      have h2 : (sumVecs (w :: ws)).length = L :=
        sumVecs_length (w :: ws) L (by simp)
          (fun u hu => hv u (List.mem_cons_of_mem _ hu))
      have hrec := sumVecs_getD (w :: ws) L j
        (fun u hu => hv u (List.mem_cons_of_mem _ hu)) hj
      show (List.zipWith (fun a b => a + b) v (sumVecs (w :: ws))).getD j 0 = _
      rw [List.getD_eq_getElem _ _
        (by rw [List.length_zipWith, h1, h2, Nat.min_self]; exact hj)]
      rw [List.getElem_zipWith, List.map_cons, List.sum_cons, ← hrec,
        List.getD_eq_getElem v 0 (h1 ▸ hj), List.getD_eq_getElem _ 0 (h2 ▸ hj)]

lemma npSumAxis0_ne (vs : List (List ℚ)) (h : vs ≠ []) :
    npSumAxis0 vs = NpArr.vec (sumVecs vs) := by
  cases vs with
  | nil => exact absurd rfl h
  | cons v ws => rfl

lemma fitModel_term (cfg : Config) (cl : Collab) (X : List (List ℚ)) (y : List ℚ)
    (Xval : List (List ℚ)) (yval : List ℚ) :
    (fitModel cfg cl X y Xval yval).term =
      match (runFit cfg cl X y Xval yval).2 with
      | some _ => some TermState.EarlyStopped
      | none => some TermState.Converged := rfl

lemma fitModel_nEst (cfg : Config) (cl : Collab) (X : List (List ℚ)) (y : List ℚ)
    (Xval : List (List ℚ)) (yval : List ℚ) :
    (fitModel cfg cl X y Xval yval).cfg.n_estimators =
      match (runFit cfg cl X y Xval yval).2 with
      | some t => t + 1
      | none => cfg.n_estimators := rfl

lemma fitModel_selHist (cfg : Config) (cl : Collab) (X : List (List ℚ)) (y : List ℚ)
    (Xval : List (List ℚ)) (yval : List ℚ) :
    (fitModel cfg cl X y Xval yval).selection_history_ =
      (runFit cfg cl X y Xval yval).1.selection_history.take
        (effRounds cfg cl X y Xval yval) := rfl

/-- C1 counterexample: in this concrete run (window size `k = 2`, raw
validation mean squared errors 4, 1, 16, 49) the trailing window of size
`k` ending AT round `t = 2` is `[1, 16]`, non-decreasing, yet the fit
does not stop with 3 effective rounds: it records 4 rounds (the code's
check at `t` reads rounds `t - k .. t - 1`, here `[4, 1]`, and only
stops at `t = 3`). -/
theorem claim_C1_counterexample :
    cfgBase.n_iter_no_change ≤ 2
    ∧ nonDecr (specWindowEndingAt cfgBase.n_iter_no_change
        (fitModel cfgBase clConst3 [[0]] [0] [[0]] [5]).rawScoreHistory 2) = true
    ∧ ¬ (effRounds cfgBase clConst3 [[0]] [0] [[0]] [5] = 2 + 1)
    ∧ (fitModel cfgBase clConst3 [[0]] [0] [[0]] [5]).selection_history_.length = 4
    ∧ (runFit cfgBase clConst3 [[0]] [0] [[0]] [5]).2 = some 3 := by
  with_unfolding_all decide

/-- C1 (amended): the check runs only at rounds `t ≥ k`; if the
validation squared-error values over the trailing window of size `k`
ending at round `t - 1` (i.e. rounds `t - k .. t - 1`, the code's slice
`score_history_[t-k : t, 1]`) are non-decreasing at every consecutive
step, and no earlier round triggered, then the fit stops with exactly
`t + 1` effective rounds — `n_estimators` is set to `t + 1`, the
selection history is truncated to `t + 1` entries with no further
rounds recorded — and the terminal state is `EarlyStopped`. -/
theorem claim_C1 (cfg : Config) (cl : Collab) (X : List (List ℚ)) (y : List ℚ)
    (Xval : List (List ℚ)) (yval : List ℚ) (t : ℕ)
    (h1 : 1 ≤ t) (hlt : t < cfg.n_estimators)
    (htrig : Trigger cfg cl X y Xval yval t)
    (hfirst : ∀ u, 1 ≤ u → u < t → ¬ Trigger cfg cl X y Xval yval u) :
    cfg.n_iter_no_change ≤ t
    ∧ nonDecr (windowVals cfg.n_iter_no_change
        (stateAfter cfg cl X y Xval yval t).score_history t) = true
    ∧ (runFit cfg cl X y Xval yval).2 = some t
    ∧ effRounds cfg cl X y Xval yval = t + 1
    ∧ (fitModel cfg cl X y Xval yval).cfg.n_estimators = t + 1
    ∧ (fitModel cfg cl X y Xval yval).term = some TermState.EarlyStopped
    ∧ (fitModel cfg cl X y Xval yval).selection_history_ =
        (stateAfter cfg cl X y Xval yval t).selection_history
    ∧ (fitModel cfg cl X y Xval yval).selection_history_.length = t + 1 := by
  have hrun : runFit cfg cl X y Xval yval =
      (stateAfter cfg cl X y Xval yval t, some t) := by
    rw [runFit_eq_loop]
    exact boostLoop_stop cfg cl X y Xval yval (cfg.n_estimators - 1) 1 t
      (Nat.le_refl _) h1 (by omega) htrig (fun u hu hu' => hfirst u hu hu')
  have heff : effRounds cfg cl X y Xval yval = t + 1 := by
    rw [effRounds, hrun]
  have hsel : (fitModel cfg cl X y Xval yval).selection_history_ =
      (stateAfter cfg cl X y Xval yval t).selection_history := by
    rw [fitModel_selHist, hrun, heff]
    exact List.take_of_length_le (by rw [selection_history_length])
  refine ⟨htrig.1, htrig.2, by rw [hrun], heff, ?_, ?_, hsel, ?_⟩
  · rw [fitModel_nEst, hrun]
  · rw [fitModel_term, hrun]
  · rw [hsel, selection_history_length]

theorem claim_C1_witness :
    (runFit cfgK1 clConst3 [[0]] [0] [[0]] [5]).2 = some 1
    ∧ effRounds cfgK1 clConst3 [[0]] [0] [[0]] [5] = 2
    ∧ (fitModel cfgK1 clConst3 [[0]] [0] [[0]] [5]).cfg.n_estimators = 2
    ∧ (fitModel cfgK1 clConst3 [[0]] [0] [[0]] [5]).term = some TermState.EarlyStopped := by
  have h := claim_C1 cfgK1 clConst3 [[0]] [0] [[0]] [5] 1
    (by decide) (by decide) (by with_unfolding_all decide)
    (fun u hu hu' => absurd (Nat.lt_of_le_of_lt hu hu') (by omega))
  exact ⟨h.2.2.1, h.2.2.2.1, h.2.2.2.2.1, h.2.2.2.2.2.1⟩

/-- C10 counterexample: a fit in which early stopping fires nevertheless
changes a configuration field other than `n_estimators`: the unset
`output_name` is overwritten with the inferred default. -/
theorem claim_C10_counterexample :
    (runFit cfgK1 clConst3 [[0]] [0] [[0]] [5]).2 = some 1
    ∧ (fitModel cfgK1 clConst3 [[0]] [0] [[0]] [5]).cfg.output_name ≠
        cfgK1.output_name := by
  with_unfolding_all decide

/-- C10 (amended): when early stopping fires at round `t`, `fit`
overwrites the public `n_estimators` to `t + 1` (so the configured
maximum is no longer stored on the model); every other configuration
field is left unchanged, except that the optional labels
`feature_names_in_` and `output_name` are filled in with inferred
defaults when unset. -/
theorem claim_C10 (cfg : Config) (cl : Collab) (X : List (List ℚ)) (y : List ℚ)
    (Xval : List (List ℚ)) (yval : List ℚ) (t : ℕ)
    (hrun : (runFit cfg cl X y Xval yval).2 = some t) :
    (fitModel cfg cl X y Xval yval).cfg.n_estimators = t + 1
    ∧ (fitModel cfg cl X y Xval yval).cfg.learning_rate = cfg.learning_rate
    ∧ (fitModel cfg cl X y Xval yval).cfg.random_state = cfg.random_state
    ∧ (fitModel cfg cl X y Xval yval).cfg.row_subsample = cfg.row_subsample
    ∧ (fitModel cfg cl X y Xval yval).cfg.validation_fraction = cfg.validation_fraction
    ∧ (fitModel cfg cl X y Xval yval).cfg.n_iter_no_change = cfg.n_iter_no_change
    ∧ (fitModel cfg cl X y Xval yval).cfg.fill_value = cfg.fill_value
    ∧ (fitModel cfg cl X y Xval yval).cfg.max_bins = cfg.max_bins
    ∧ (fitModel cfg cl X y Xval yval).cfg.max_depth = cfg.max_depth
    ∧ (fitModel cfg cl X y Xval yval).cfg.l2_regularization = cfg.l2_regularization
    ∧ (fitModel cfg cl X y Xval yval).cfg.min_samples_split = cfg.min_samples_split
    ∧ (fitModel cfg cl X y Xval yval).cfg.min_samples_leaf = cfg.min_samples_leaf
    ∧ (fitModel cfg cl X y Xval yval).cfg.categorical_features = cfg.categorical_features
    ∧ (fitModel cfg cl X y Xval yval).cfg.feature_names_in_ =
        some (cfg.feature_names_in_.getD
          ((List.range (nFeat X)).map (fun i => "feature_" ++ toString i)))
    ∧ (fitModel cfg cl X y Xval yval).cfg.output_name =
        some (cfg.output_name.getD "output") := by
  refine ⟨?_, rfl, rfl, rfl, rfl, rfl, rfl, rfl, rfl, rfl, rfl, rfl, rfl, ?_, ?_⟩
  · rw [fitModel_nEst, hrun]
  · cases h : cfg.feature_names_in_ with
    | none =>
        show (match cfg.feature_names_in_ with
          | some ns => some ns
          | none => some ((List.range (nFeat X)).map (fun i => "feature_" ++ toString i))) = _
        rw [h]
        rfl
    | some ns =>
        show (match cfg.feature_names_in_ with
          | some ns => some ns
          | none => some ((List.range (nFeat X)).map (fun i => "feature_" ++ toString i))) = _
        rw [h]
        rfl
  · cases h : cfg.output_name with
    | none =>
        show (match cfg.output_name with
          | some s => some s
          | none => some "output") = _
        rw [h]
        rfl
    | some s =>
        show (match cfg.output_name with
          | some s => some s
          | none => some "output") = _
        rw [h]
        rfl

theorem claim_C10_witness :
    (fitModel cfgK1 clConst3 [[0]] [0] [[0]] [5]).cfg.n_estimators = 2
    ∧ (fitModel cfgK1 clConst3 [[0]] [0] [[0]] [5]).cfg.learning_rate =
        cfgK1.learning_rate
    ∧ (fitModel cfgK1 clConst3 [[0]] [0] [[0]] [5]).cfg.output_name = some "output" := by
  have h := claim_C10 cfgK1 clConst3 [[0]] [0] [[0]] [5] 1
    (by with_unfolding_all decide)
  exact ⟨h.1, h.2.1, h.2.2.2.2.2.2.2.2.2.2.2.2.2.2⟩

section PredictLemmas

variable (cfg : Config) (cl : Collab) (X : List (List ℚ)) (y : List ℚ)
variable (Xval : List (List ℚ)) (yval : List ℚ)

lemma scoreAt_length
    (Hrel : ∀ r, (cl.relevancy_scorer (XtD cl X y) r).length = nFeat X)
    (Hmr : ∀ v a, (cl.mrmr_scheme v a).length = v.length) (t : ℕ) :
    (scoreAt cfg cl X y Xval yval t).length = nFeat X := by
  rw [scoreAt, Hmr, Hrel]

lemma selectedAt_lt
    (Hrel : ∀ r, (cl.relevancy_scorer (XtD cl X y) r).length = nFeat X)
    (Hmr : ∀ v a, (cl.mrmr_scheme v a).length = v.length)
    (hn : 0 < nFeat X) (t : ℕ) :
    selectedAt cfg cl X y Xval yval t < nFeat X := by
  have hlen := scoreAt_length cfg cl X y Xval yval Hrel Hmr t
  have hne : scoreAt cfg cl X y Xval yval t ≠ [] := by
    intro h0
    rw [h0] at hlen
    simp at hlen
    omega
  have := npArgmax_lt_length _ hne
  rw [selectedAt]
  omega

lemma regressors_nonempty_persist (t i : ℕ)
    (h : (stateAfter cfg cl X y Xval yval t).regressors.getD i [] ≠ []) :
    (stateAfter cfg cl X y Xval yval (t + 1)).regressors.getD i [] ≠ [] := by
  rw [regressors_stateAfter, preState_succ]
  by_cases hif : i = selectedAt cfg cl X y Xval yval (t + 1)
  · by_cases hfl : selectedAt cfg cl X y Xval yval (t + 1) <
        (stateAfter cfg cl X y Xval yval t).regressors.length
    · rw [hif, getD_set_self _ _ _ _ hfl]
      simp
    · rw [List.set_eq_of_length_le (by omega)]
      exact h
  · rw [getD_set_ne _ _ _ _ _ hif]
    exact h

lemma regressors_f0_nonempty
    (Hrel : ∀ r, (cl.relevancy_scorer (XtD cl X y) r).length = nFeat X)
    (Hmr : ∀ v a, (cl.mrmr_scheme v a).length = v.length)
    (hn : 0 < nFeat X) (t : ℕ) :
    (stateAfter cfg cl X y Xval yval t).regressors.getD
      (selectedAt cfg cl X y Xval yval 0) [] ≠ [] := by
  induction t with
  | zero =>
      rw [regressors_stateAfter]
      have hf0 : selectedAt cfg cl X y Xval yval 0 <
          (preState cfg cl X y Xval yval 0).regressors.length := by
        rw [regressors_length_preState]
        exact selectedAt_lt cfg cl X y Xval yval Hrel Hmr hn 0
      rw [getD_set_self _ _ _ _ hf0]
      simp
  | succ t ih => exact regressors_nonempty_persist cfg cl X y Xval yval t _ ih

lemma fitModel_regressors_eq :
    (fitModel cfg cl X y Xval yval).regressors_ =
      ((List.range (nFeat X)).map
        (fun i => fix_bias
          (sum_tree_regressors ((runFit cfg cl X y Xval yval).1.regressors.getD i []))
          (colOf (XtD cl X y) i))).map Prod.fst := rfl

lemma fitModel_regressors_length :
    (fitModel cfg cl X y Xval yval).regressors_.length = nFeat X := by
  rw [fitModel_regressors_eq]
  simp

lemma fitModel_regressor_getD (i : ℕ) (hi : i < nFeat X) :
    (fitModel cfg cl X y Xval yval).regressors_.getD i default =
      (fix_bias
        (sum_tree_regressors ((runFit cfg cl X y Xval yval).1.regressors.getD i []))
        (colOf (XtD cl X y) i)).1 := by
  rw [fitModel_regressors_eq,
    List.getD_eq_getElem _ _ (by simp; exact hi),
    List.getElem_map, List.getElem_map, List.getElem_range]

lemma is_selected_of_nonempty (i : ℕ) (hi : i < nFeat X)
    (h : (runFit cfg cl X y Xval yval).1.regressors.getD i [] ≠ []) :
    ((fitModel cfg cl X y Xval yval).regressors_.getD i default).is_selected = true := by
  rw [fitModel_regressor_getD cfg cl X y Xval yval i hi]
  show (sum_tree_regressors _).is_selected = true
  rw [sum_tree_regressors]
  cases hc : (runFit cfg cl X y Xval yval).1.regressors.getD i [] with
  | nil => exact absurd hc h
  | cons a as => rfl

lemma empty_of_not_selected (i : ℕ) (hi : i < nFeat X)
    (h : ((fitModel cfg cl X y Xval yval).regressors_.getD i default).is_selected = false) :
    (runFit cfg cl X y Xval yval).1.regressors.getD i [] = [] := by
  by_contra hne
  rw [is_selected_of_nonempty cfg cl X y Xval yval i hi hne] at h
  simp at h

lemma predict_zero_of_empty (i : ℕ) (hi : i < nFeat X)
    (hempty : (runFit cfg cl X y Xval yval).1.regressors.getD i [] = []) (z : ℚ) :
    ((fitModel cfg cl X y Xval yval).regressors_.getD i default).predictFn z = 0 := by
  rw [fitModel_regressor_getD cfg cl X y Xval yval i hi, hempty]
  show (sum_tree_regressors []).predictFn z -
      mean ((colOf (XtD cl X y) i).map (sum_tree_regressors []).predictFn) = 0
  have hz : ∀ w, (sum_tree_regressors []).predictFn w = 0 := fun w => rfl
  have hmap : (colOf (XtD cl X y) i).map (sum_tree_regressors []).predictFn =
      List.replicate (colOf (XtD cl X y) i).length (0 : ℚ) := by
    rw [List.map_congr_left (fun a _ => hz a)]
    exact List.map_const' _ 0
  rw [hz z, hmap, mean]
  simp

lemma selFeatures_fitModel_ne
    (hne : 1 ≤ cfg.n_estimators)
    (Hrel : ∀ r, (cl.relevancy_scorer (XtD cl X y) r).length = nFeat X)
    (Hmr : ∀ v a, (cl.mrmr_scheme v a).length = v.length)
    (hn : 0 < nFeat X) :
    selFeatures (fitModel cfg cl X y Xval yval) ≠ [] := by
  obtain ⟨hstate, h1, _⟩ := runFit_final cfg cl X y Xval yval hne
  have hf0lt : selectedAt cfg cl X y Xval yval 0 < nFeat X :=
    selectedAt_lt cfg cl X y Xval yval Hrel Hmr hn 0
  have hf0ne : (runFit cfg cl X y Xval yval).1.regressors.getD
      (selectedAt cfg cl X y Xval yval 0) [] ≠ [] := by
    rw [hstate]
    exact regressors_f0_nonempty cfg cl X y Xval yval Hrel Hmr hn _
  have hf0sel := is_selected_of_nonempty cfg cl X y Xval yval _ hf0lt hf0ne
  apply List.ne_nil_of_mem (a := selectedAt cfg cl X y Xval yval 0)
  rw [selFeatures]
  apply List.mem_filter.mpr
  refine ⟨List.mem_range.mpr ?_, hf0sel⟩
  rw [fitModel_regressors_length]
  exact hf0lt

end PredictLemmas

section PredictSpec

lemma predictRaw_spec_gen (M : Model) (X' : List (List ℚ))
    (hsel : selFeatures M ≠ []) :
    ∃ v, predictRaw M X' = NpArr.vec v
      ∧ v.length = X'.length
      ∧ ∀ j, j < X'.length →
          v.getD j 0 = M.intercept_ +
            ((selFeatures M).map
              (fun i => (M.regressors_.getD i default).predictFn
                (((X'.map M.transformR).getD j []).getD i 0))).sum := by
  have hXa : (X'.map M.transformR).length = X'.length := List.length_map _ _
  have hpreds_ne : ((selFeatures M).map
      (fun i => (X'.map M.transformR).map
        (fun row => (M.regressors_.getD i default).predictFn (row.getD i 0)))) ≠ [] :=
    fun h => hsel (List.map_eq_nil_iff.mp h)
  have hlens : ∀ v ∈ ((selFeatures M).map
      (fun i => (X'.map M.transformR).map
        (fun row => (M.regressors_.getD i default).predictFn (row.getD i 0)))),
      v.length = X'.length := by
    intro v hv
    obtain ⟨i, _, rfl⟩ := List.mem_map.mp hv
    rw [List.length_map, hXa]
  refine ⟨(sumVecs ((selFeatures M).map
      (fun i => (X'.map M.transformR).map
        (fun row => (M.regressors_.getD i default).predictFn (row.getD i 0))))).map
      (fun x => M.intercept_ + x), ?_, ?_, ?_⟩
  · show broadcastAdd M.intercept_ (npSumAxis0 _) = _
    rw [← selFeatures, npSumAxis0_ne _ hpreds_ne]
    rfl
  · rw [List.length_map]
    exact sumVecs_length _ X'.length hpreds_ne hlens
  · intro j hj
    have hjs : j < (sumVecs ((selFeatures M).map
        (fun i => (X'.map M.transformR).map
          (fun row => (M.regressors_.getD i default).predictFn (row.getD i 0))))).length := by
      rw [sumVecs_length _ X'.length hpreds_ne hlens]
      exact hj
    rw [List.getD_eq_getElem _ _ (by rw [List.length_map]; exact hjs),
      List.getElem_map, ← List.getD_eq_getElem _ 0 hjs]
    rw [sumVecs_getD _ X'.length j hlens hj]
    congr 1
    rw [List.map_map]
    congr 1
    apply List.map_congr_left
    intro i _
    simp only [Function.comp_apply]
    have hjX : j < (X'.map M.transformR).length := by rw [hXa]; exact hj
    rw [List.getD_eq_getElem ((X'.map M.transformR).map
        (fun row => (M.regressors_.getD i default).predictFn (row.getD i 0))) 0
        (by rw [List.length_map]; exact hjX),
      List.getElem_map,
      List.getD_eq_getElem (X'.map M.transformR) [] hjX]

lemma contributionRaw_spec (M : Model) (X' : List (List ℚ)) (j : ℕ)
    (hj : j < X'.length) :
    (contributionRaw M X').getD j [] =
      M.intercept_ :: (List.range M.nFeatures).map
        (fun i => (M.regressors_.getD i default).predictFn
          (((X'.map M.transformR).getD j []).getD i 0)) := by
  have hXa : (X'.map M.transformR).length = X'.length := List.length_map _ _
  show ((X'.map M.transformR).map _).getD j [] = _
  rw [List.getD_eq_getElem _ _ (by rw [List.length_map, hXa]; exact hj),
    List.getElem_map, List.getD_eq_getElem _ _ (by rw [hXa]; exact hj)]

lemma contribution_col0 (M : Model) (X' : List (List ℚ)) (j : ℕ)
    (hj : j < X'.length) :
    ((contributionRaw M X').getD j []).getD 0 0 = M.intercept_ := by
  rw [contributionRaw_spec M X' j hj]
  rfl

lemma contribution_colSucc (M : Model) (X' : List (List ℚ)) (j : ℕ)
    (hj : j < X'.length) (i : ℕ) (hi : i < M.nFeatures) :
    ((contributionRaw M X').getD j []).getD (i + 1) 0 =
      (M.regressors_.getD i default).predictFn
        (((X'.map M.transformR).getD j []).getD i 0) := by
  rw [contributionRaw_spec M X' j hj, List.getD_cons_succ]
  exact getD_map_range 0 M.nFeatures i _ hi

end PredictSpec

/-- C5: for every fitted model and input, `predict` equals the intercept
column of the contribution frame plus the sum of its selected-feature
columns, and the columns of unselected features are identically zero. -/
theorem claim_C5 (cfg : Config) (cl : Collab) (X : List (List ℚ)) (y : List ℚ)
    (Xval : List (List ℚ)) (yval : List ℚ) (Xnew : List (List ℚ))
    (hne : 1 ≤ cfg.n_estimators)
    (Hrel : ∀ r, (cl.relevancy_scorer (XtD cl X y) r).length = nFeat X)
    (Hmr : ∀ v a, (cl.mrmr_scheme v a).length = v.length)
    (hn : 0 < nFeat X) :
    ∃ v, predictE (fitModel cfg cl X y Xval yval) Xnew = Except.ok (NpArr.vec v)
      ∧ contribution_frameE (fitModel cfg cl X y Xval yval) Xnew =
          Except.ok (contributionRaw (fitModel cfg cl X y Xval yval) Xnew)
      ∧ (∀ j, j < Xnew.length →
          ((contributionRaw (fitModel cfg cl X y Xval yval) Xnew).getD j []).getD 0 0 =
            (fitModel cfg cl X y Xval yval).intercept_)
      ∧ (∀ j, j < Xnew.length →
          v.getD j 0 =
            ((contributionRaw (fitModel cfg cl X y Xval yval) Xnew).getD j []).getD 0 0 +
              ((selFeatures (fitModel cfg cl X y Xval yval)).map
                (fun i => ((contributionRaw (fitModel cfg cl X y Xval yval) Xnew).getD
                  j []).getD (i + 1) 0)).sum)
      ∧ (∀ i, i < nFeat X →
          ((fitModel cfg cl X y Xval yval).regressors_.getD i default).is_selected = false →
          ∀ j, j < Xnew.length →
            ((contributionRaw (fitModel cfg cl X y Xval yval) Xnew).getD j []).getD
              (i + 1) 0 = 0) := by
  have hsel := selFeatures_fitModel_ne cfg cl X y Xval yval hne Hrel Hmr hn
  obtain ⟨v, hv1, hv2, hv3⟩ :=
    predictRaw_spec_gen (fitModel cfg cl X y Xval yval) Xnew hsel
  have hfeat : (fitModel cfg cl X y Xval yval).nFeatures = nFeat X := rfl
  refine ⟨v, ?_, rfl, ?_, ?_, ?_⟩
  · show Except.ok (predictRaw (fitModel cfg cl X y Xval yval) Xnew) = _
    rw [hv1]
  · intro j hj
    exact contribution_col0 _ _ j hj
  · intro j hj
    rw [hv3 j hj, contribution_col0 _ _ j hj]
    congr 1
    congr 1
    apply List.map_congr_left
    intro i hi
    have hilt : i < nFeat X := by
      have := (List.mem_filter.mp hi).1
      have h2 := List.mem_range.mp this
      rw [fitModel_regressors_length] at h2
      exact h2
    rw [contribution_colSucc _ _ j hj i (by rw [hfeat]; exact hilt)]
  · intro i hilt hnotsel j hj
    rw [contribution_colSucc _ _ j hj i (by rw [hfeat]; exact hilt)]
    exact predict_zero_of_empty cfg cl X y Xval yval i hilt
      (empty_of_not_selected cfg cl X y Xval yval i hilt hnotsel) _

theorem claim_C5_witness :
    ∃ v, predictE (fitModel cfgBase clConst3 [[0]] [0] [[0]] [5]) [[7]] =
        Except.ok (NpArr.vec v)
      ∧ contribution_frameE (fitModel cfgBase clConst3 [[0]] [0] [[0]] [5]) [[7]] =
          Except.ok (contributionRaw (fitModel cfgBase clConst3 [[0]] [0] [[0]] [5]) [[7]]) := by
  obtain ⟨v, h1, h2, _⟩ := claim_C5 cfgBase clConst3 [[0]] [0] [[0]] [5] [[7]]
    (by decide) (fun _ => rfl) (fun _ _ => rfl) (by decide)
  exact ⟨v, h1, h2⟩

/-- C6: for every fitted model and every input, `predict` returns a
vector (not a scalar) whose length equals the number of input rows;
within the validated configuration (`n_estimators ≥ 1`) at least one
feature is always selected, so the numpy sum never degenerates. -/
theorem claim_C6 (cfg : Config) (cl : Collab) (X : List (List ℚ)) (y : List ℚ)
    (Xval : List (List ℚ)) (yval : List ℚ) (Xnew : List (List ℚ))
    (hne : 1 ≤ cfg.n_estimators)
    (Hrel : ∀ r, (cl.relevancy_scorer (XtD cl X y) r).length = nFeat X)
    (Hmr : ∀ v a, (cl.mrmr_scheme v a).length = v.length)
    (hn : 0 < nFeat X) :
    selFeatures (fitModel cfg cl X y Xval yval) ≠ []
    ∧ ∃ v, predictE (fitModel cfg cl X y Xval yval) Xnew = Except.ok (NpArr.vec v)
        ∧ v.length = Xnew.length := by
  have hsel := selFeatures_fitModel_ne cfg cl X y Xval yval hne Hrel Hmr hn
  obtain ⟨v, hv1, hv2, _⟩ :=
    predictRaw_spec_gen (fitModel cfg cl X y Xval yval) Xnew hsel
  refine ⟨hsel, v, ?_, hv2⟩
  show Except.ok (predictRaw (fitModel cfg cl X y Xval yval) Xnew) = _
  rw [hv1]

theorem claim_C6_witness :
    ∃ v, predictE (fitModel cfgBase clConst3 [[0]] [0] [[0]] [5]) [[7]] =
        Except.ok (NpArr.vec v)
      ∧ v.length = 1 := by
  obtain ⟨_, v, h1, h2⟩ := claim_C6 cfgBase clConst3 [[0]] [0] [[0]] [5] [[7]]
    (by decide) (fun _ => rfl) (fun _ _ => rfl) (by decide)
  exact ⟨v, h1, by simpa using h2⟩

theorem claim_C7_witness :
    (fitModel cfgBase clConst3 [[0]] [0] [[0]] [5]).rawScoreHistory.length =
        effRounds cfgBase clConst3 [[0]] [0] [[0]] [5] ∧
      0 ≤ ((score_history_ (fitModel cfgBase clConst3 [[0]] [0] [[0]] [5])).getD 0 (0, 0)).2 := by
  have h := claim_C7 cfgBase clConst3 [[0]] [0] [[0]] [5] (by decide)
  refine ⟨h.1, ?_⟩
  have h4 := h.2.2.2 0 (by rw [h.1]; with_unfolding_all decide)
  exact h4.2.2.1

end ASBoost
